import Mathlib

/-!
Verification of the certkit-agent identity and request-signing core.

Shallow embedding conventions:
* Go strings are modelled as `List Char` (`Str`), Go byte slices as
  `List Nat` (`Bytes`) with each byte `< 256` where it matters.
* Go's `strings.ToUpper` / `strings.ToLower` / `strings.TrimSpace` are
  modelled on the ASCII fragment (the repository only feeds ASCII header
  material through them).
* Fallible Go functions return `Option` / `Except`.
* `time.Time` is modelled as unix seconds plus nanoseconds; `Unix()`
  returns the seconds.
-/

namespace Certkit

abbrev Str := List Char

abbrev Bytes := List Nat

def strOf (s : String) : Str := s.data

/-- ASCII model of Go `unicode.ToUpper` on one rune. -/
def goUpperChar (c : Char) : Char :=
  if 97 ≤ c.toNat ∧ c.toNat ≤ 122 then Char.ofNat (c.toNat - 32) else c

/-- ASCII model of Go `unicode.ToLower` on one rune. -/
def goLowerChar (c : Char) : Char :=
  if 65 ≤ c.toNat ∧ c.toNat ≤ 90 then Char.ofNat (c.toNat + 32) else c

/-- Model of Go `strings.ToUpper`. -/
def goToUpper (s : Str) : Str := s.map goUpperChar

/-- Model of Go `strings.ToLower`. -/
def goToLower (s : Str) : Str := s.map goLowerChar

/-- ASCII model of Go `unicode.IsSpace`. -/
def isGoSpace (c : Char) : Bool :=
  c = ' ' ∨ c = '\t' ∨ c = '\n' ∨ c = '\x0b' ∨ c = '\x0c' ∨ c = '\r'

/-- Model of Go `strings.TrimSpace`. -/
def trimSpace (s : Str) : Str :=
  ((s.dropWhile isGoSpace).reverse.dropWhile isGoSpace).reverse

/-- Decimal digits of a natural number, little work-horse for
`strconv.FormatInt`. -/
def natToDec (n : Nat) : Str :=
  if h : n < 10 then [Char.ofNat (48 + n)]
  else natToDec (n / 10) ++ [Char.ofNat (48 + n % 10)]
decreasing_by exact Nat.div_lt_self (by omega) (by omega)

/-- Model of Go `strconv.FormatInt(i, 10)`. -/
def formatInt10 (i : Int) : Str :=
  if i < 0 then '-' :: natToDec i.natAbs else natToDec i.toNat

/-- Read a decimal digit string back; retraction used to prove
injectivity of `natToDec`. -/
def decVal (s : Str) : Nat :=
  s.foldl (fun acc c => acc * 10 + (c.toNat - 48)) 0

/-- One character of the base64url alphabet (Go `base64.URLEncoding`
alphabet, used by `base64.RawURLEncoding`). -/
def b64EncChar (n : Nat) : Char :=
  if n < 26 then Char.ofNat (65 + n)
  else if n < 52 then Char.ofNat (97 + (n - 26))
  else if n < 62 then Char.ofNat (48 + (n - 52))
  else if n = 62 then '-'
  else '_'

/-- Inverse lookup in the base64url alphabet. -/
def b64DecChar (c : Char) : Option Nat :=
  if 65 ≤ c.toNat ∧ c.toNat ≤ 90 then some (c.toNat - 65)
  else if 97 ≤ c.toNat ∧ c.toNat ≤ 122 then some (c.toNat - 97 + 26)
  else if 48 ≤ c.toNat ∧ c.toNat ≤ 57 then some (c.toNat - 48 + 52)
  else if c = '-' then some 62
  else if c = '_' then some 63
  else none

/-- Model of Go `base64.RawURLEncoding.EncodeToString`: unpadded
base64url over three-byte groups. -/
def b64Encode : Bytes → Str
  | [] => []
  | [a] =>
    [b64EncChar (a / 4), b64EncChar (a % 4 * 16)]
  | [a, b] =>
    [b64EncChar (a / 4), b64EncChar (a % 4 * 16 + b / 16), b64EncChar (b % 16 * 4)]
  | a :: b :: c :: rest =>
    b64EncChar (a / 4) :: b64EncChar (a % 4 * 16 + b / 16) ::
      b64EncChar (b % 16 * 4 + c / 64) :: b64EncChar (c % 64) :: b64Encode rest

/-- Model of Go `base64.RawURLEncoding.DecodeString` (default non-strict
mode: leftover trailing bits of a final partial group are discarded; a
single leftover character or an alphabet-foreign character is an
error, reported as `none`). -/
def b64Decode : Str → Option Bytes
  | [] => some []
  | [_] => none
  | [w, x] =>
    match b64DecChar w, b64DecChar x with
    | some a, some b => some [a * 4 + b / 16]
    | _, _ => none
  | [w, x, y] =>
    match b64DecChar w, b64DecChar x, b64DecChar y with
    | some a, some b, some c => some [a * 4 + b / 16, b % 16 * 16 + c / 4]
    | _, _, _ => none
  | w :: x :: y :: z :: rest =>
    match b64DecChar w, b64DecChar x, b64DecChar y, b64DecChar z with
    | some a, some b, some c, some d =>
      match b64Decode rest with
      | some bs => some ((a * 4 + b / 16) :: (b % 16 * 16 + c / 4) :: (c % 4 * 64 + d) :: bs)
      | none => none
    | _, _, _, _ => none

/-- Truncate to a 32-bit word. -/
def w32 (n : Nat) : Nat := n % 4294967296

/-- Right rotation of a 32-bit word. -/
def rotr32 (x n : Nat) : Nat := w32 (x / 2 ^ n + x % 2 ^ n * 2 ^ (32 - n))

def shaCh (e f g : Nat) : Nat := (e &&& f) ^^^ ((4294967295 - e) &&& g)

def shaMaj (a b c : Nat) : Nat := (a &&& b) ^^^ (a &&& c) ^^^ (b &&& c)

def bSig0 (x : Nat) : Nat := rotr32 x 2 ^^^ rotr32 x 13 ^^^ rotr32 x 22

def bSig1 (x : Nat) : Nat := rotr32 x 6 ^^^ rotr32 x 11 ^^^ rotr32 x 25

def sSig0 (x : Nat) : Nat := rotr32 x 7 ^^^ rotr32 x 18 ^^^ x / 2 ^ 3

def sSig1 (x : Nat) : Nat := rotr32 x 17 ^^^ rotr32 x 19 ^^^ x / 2 ^ 10

/-- The 64 SHA-256 round constants. -/
def shaK : List Nat :=
  [1116352408, 1899447441, 3049323471, 3921009573, 961987163,
   1508970993, 2453635748, 2870763221, 3624381080, 310598401,
   607225278, 1426881987, 1925078388, 2162078206, 2614888103,
   3248222580, 3835390401, 4022224774, 264347078, 604807628,
   770255983, 1249150122, 1555081692, 1996064986, 2554220882,
   2821834349, 2952996808, 3210313671, 3336571891, 3584528711,
   113926993, 338241895, 666307205, 773529912, 1294757372,
   1396182291, 1695183700, 1986661051, 2177026350, 2456956037,
   2730485921, 2820302411, 3259730800, 3345764771, 3516065817,
   3600352804, 4094571909, 275423344, 430227734, 506948616,
   659060556, 883997877, 958139571, 1322822218, 1537002063,
   1747873779, 1955562222, 2024104815, 2227730452, 2361852424,
   2428436474, 2756734187, 3204031479, 3329325298]

/-- SHA-256 initial hash state. -/
def shaH0 : List Nat :=
  [1779033703, 3144134277, 1013904242, 2773480762,
   1359893119, 2600822924, 528734635, 1541459225]

/-- Big-endian bytes of a 64-bit length field. -/
def beBytes8 (n : Nat) : Bytes :=
  [n / 2 ^ 56 % 256, n / 2 ^ 48 % 256, n / 2 ^ 40 % 256, n / 2 ^ 32 % 256,
   n / 2 ^ 24 % 256, n / 2 ^ 16 % 256, n / 2 ^ 8 % 256, n % 256]

/-- Big-endian bytes of one 32-bit word. -/
def beBytes4 (n : Nat) : Bytes :=
  [n / 2 ^ 24 % 256, n / 2 ^ 16 % 256, n / 2 ^ 8 % 256, n % 256]

/-- Group bytes into big-endian 32-bit words. -/
def toWordsBE : Bytes → List Nat
  | a :: b :: c :: d :: rest => (a * 16777216 + b * 65536 + c * 256 + d) :: toWordsBE rest
  | _ => []

/-- SHA-256 message padding: append 0x80, zeros, and the 64-bit
big-endian bit length. -/
def sha256Pad (msg : Bytes) : Bytes :=
  let len := msg.length
  let padZeros := (55 + 64 - len % 64) % 64
  msg ++ 128 :: List.replicate padZeros 0 ++ beBytes8 (len * 8)

/-- Split a byte sequence into 64-byte blocks. -/
def chunk64 : Bytes → List Bytes
  | [] => []
  | a :: rest => (a :: rest.take 63) :: chunk64 (rest.drop 63)
termination_by l => l.length
decreasing_by simp [List.length_drop]; omega

/-- Extend the 16 message-schedule words by `k` more words. -/
def extendW : Nat → List Nat → List Nat
  | 0, ws => ws
  | k + 1, ws =>
    extendW k (ws ++ [w32 (sSig1 (ws.getD (ws.length - 2) 0) +
      ws.getD (ws.length - 7) 0 + sSig0 (ws.getD (ws.length - 15) 0) +
      ws.getD (ws.length - 16) 0)])

/-- The 64 SHA-256 compression rounds, driven by the zipped
(round-constant, schedule-word) list. -/
def sha256Rounds : List (Nat × Nat) → List Nat → List Nat
  | [], st => st
  | kw :: rest, st =>
    match st with
    | [a, b, c, d, e, f, g, hh] =>
      let t1 := w32 (hh + bSig1 e + shaCh e f g + kw.1 + kw.2)
      let t2 := w32 (bSig0 a + shaMaj a b c)
      sha256Rounds rest [w32 (t1 + t2), a, b, c, w32 (d + t1), e, f, g]
    | other => other

/-- One SHA-256 block compression. -/
def compressBlock (h : List Nat) (block : Bytes) : List Nat :=
  let ws := extendW 48 (toWordsBE block)
  let fin := sha256Rounds (shaK.zip ws) h
  (h.zip fin).map fun p => w32 (p.1 + p.2)

/-- SHA-256 of a byte sequence (model of Go `crypto/sha256.Sum256`). -/
def sha256 (msg : Bytes) : Bytes :=
  (((chunk64 (sha256Pad msg)).foldl compressBlock shaH0).map beBytes4).flatten

/-- UTF-8 encoding of one scalar value (model of Go string-to-byte
conversion of the signing string). -/
def utf8Char (c : Char) : Bytes :=
  let n := c.toNat
  if n < 128 then [n]
  else if n < 2048 then [192 + n / 64, 128 + n % 64]
  else if n < 65536 then [224 + n / 4096, 128 + n / 64 % 64, 128 + n % 64]
  else [240 + n / 262144, 128 + n / 4096 % 64, 128 + n / 64 % 64, 128 + n % 64]

/-- UTF-8 bytes of a string (Go `[]byte(s)`). -/
def strBytes (s : Str) : Bytes := (s.map utf8Char).flatten

/-- Model of Go `time.Time`: an instant is unix seconds plus a
nanosecond remainder; `UTC()` does not change the instant and
`Unix()` returns the seconds. -/
structure GoTime where
  sec : Int
  nsec : Nat

def goTimeUnix (t : GoTime) : Int := t.sec

/-- The parts of Go `net/url.URL` the signer reads: `EscapedPath()`,
`RawQuery` and `Host`. -/
structure GoURL where
  escapedPath : Str
  rawQuery : Str
  host : Str

/-- Model of an `io.ReadCloser` request body: the underlying bytes and
the current read position (`ReadAll` consumes everything from `pos`). -/
structure GoBody where
  data : Bytes
  pos : Nat

/-- The parts of Go `net/http.Request` the signer touches. -/
structure GoRequest where
  method : Str
  url : Option GoURL
  host : Str
  body : Option GoBody
  headers : List (Str × Str)

/-- Model of `http.Header.Set`: replace any previous values of the key. -/
def setHeader (hs : List (Str × Str)) (k v : Str) : List (Str × Str) :=
  (k, v) :: hs.filter (fun p => ¬ p.1 = k)

def getHeader (hs : List (Str × Str)) (k : Str) : Option Str :=
  (hs.find? (fun p => p.1 = k)).map Prod.snd

/-- certkit `auth.ComputeBodySHA256Base64url`: hash the exact remaining
body bytes (the empty sequence for a nil body) and restore the body to
a fresh reader over those bytes. -/
def ComputeBodySHA256Base64url (req : GoRequest) : Str × GoRequest :=
  match req.body with
  | none => (b64Encode (sha256 []), req)
  | some bd =>
    let b := bd.data.drop bd.pos
    (b64Encode (sha256 b), { req with body := some ⟨b, 0⟩ })

/-- certkit `auth.canonicalPathAndQuery`. -/
def canonicalPathAndQuery (u : Option GoURL) : Str :=
  match u with
  | none => strOf "/"
  | some u =>
    let path := if u.escapedPath = [] then strOf "/" else u.escapedPath
    if ¬ u.rawQuery = [] then path ++ strOf "?" ++ u.rawQuery else path

/-- certkit `auth.canonicalHost`. -/
def canonicalHost (req : GoRequest) : Str :=
  let h := trimSpace req.host
  if ¬ h = [] then goToLower h
  else
    match req.url with
    | some u => goToLower u.host
    | none => []

/-- certkit `auth.buildSigningString`. -/
def buildSigningString (method pathQuery host : Str) (ts : Int) (bodyHash : Str) : Str :=
  List.intercalate (strOf "\n")
    [strOf "method: " ++ goToUpper method,
     strOf "path: " ++ pathQuery,
     strOf "host: " ++ goToLower host,
     strOf "ts: " ++ formatInt10 ts,
     strOf "body_sha256: " ++ bodyHash]

/-- Model of Go `crypto/ed25519.Sign` (external library): abstracted as
a deterministic function of the private key and message that produces
a 64-byte signature; the curve arithmetic is outside this repository. -/
def ed25519Sign (priv msg : Bytes) : Bytes :=
  sha256 (priv ++ msg) ++ sha256 (msg ++ priv)

def authHeaderValue (agentID sigB64 : Str) : Str :=
  strOf "AgentSig keyId=\"" ++ agentID ++ strOf "\", alg=\"ed25519\", sig=\"" ++
    sigB64 ++ strOf "\", signed=\"method path host ts body_sha256\""

/-- certkit `auth.SignRequest`. A `none` request models a nil pointer;
an `Except.error` result models the Go error return, in which case the
(pure) input request is untouched by construction. -/
def SignRequest (req : Option GoRequest) (agentID : Str) (priv : Bytes)
    (now : GoTime) : Except Str GoRequest :=
  match req with
  | none => .error (strOf "req is nil")
  | some r =>
    if ¬ priv.length = 64 then .error (strOf "invalid ed25519 private key length")
    else if agentID = [] then .error (strOf "agentID is required")
    else
      match r.url with
      | none => .error (strOf "req.URL is nil")
      | some u =>
        let ts := goTimeUnix now
        let hashed := ComputeBodySHA256Base64url r
        let bodyHash := hashed.1
        let r1 := hashed.2
        let pathQuery := canonicalPathAndQuery (some u)
        let host := canonicalHost r1
        if host = [] then
          .error (strOf "missing host (req.Host and req.URL.Host both empty)")
        else
          let signingString := buildSigningString r1.method pathQuery host ts bodyHash
          let sigB64 := b64Encode (ed25519Sign priv (strBytes signingString))
          let h1 := setHeader r1.headers (strOf "X-Agent-Id") agentID
          let h2 := setHeader h1 (strOf "X-Agent-Timestamp") (formatInt10 ts)
          let h3 := setHeader h2 (strOf "X-Agent-Content-SHA256") bodyHash
          let h4 := setHeader h3 (strOf "Authorization") (authHeaderValue agentID sigB64)
          .ok { r1 with headers := h4 }

/-- certkit `auth.KeyPair` (encoded form). -/
structure KeyPair where
  publicKey : Str
  privateKey : Str
deriving DecidableEq

/-- Model of Go `crypto/ed25519.GenerateKey` (external library): reads
an entropy stream and returns a 32-byte public key and a 64-byte
private key (seed followed by public key); the curve-point derivation
of the public key is abstracted as further entropy bytes. -/
def ed25519GenerateKey (entropy : Nat → Nat) : Bytes × Bytes :=
  let seed := (List.range 32).map fun i => entropy i % 256
  let pub := (List.range 32).map fun i => entropy (32 + i) % 256
  (pub, seed ++ pub)

/-- certkit `auth.CreateNewKeyPair`; the random source is passed
explicitly, and the model cannot fail (Go fails only if the random
source does). -/
def CreateNewKeyPair (entropy : Nat → Nat) : KeyPair :=
  let p := ed25519GenerateKey entropy
  ⟨b64Encode p.1, b64Encode p.2⟩

/-- certkit `auth.DecodePrivateKey`. -/
def DecodePrivateKey (encoded : Str) : Option Bytes :=
  match b64Decode encoded with
  | none => none
  | some b => if ¬ b.length = 64 then none else some b

/-- certkit `auth.DecodePublicKey`. -/
def DecodePublicKey (encoded : Str) : Option Bytes :=
  match b64Decode encoded with
  | none => none
  | some b => if ¬ b.length = 32 then none else some b

structure BootstrapCreds where
  accessKey : Str
  secretKey : Str
deriving DecidableEq

structure AgentCreds where
  agentID : Str
  accessToken : Str
  refreshToken : Str
deriving DecidableEq

structure AuthCreds where
  keyPair : Option KeyPair
deriving DecidableEq

structure VersionInfo where
  version : Str
  commit : Str
  date : Str
deriving DecidableEq

/-- certkit `config.Config`. `desiredState` is an opaque
`json.RawMessage` payload. -/
structure Config where
  apiBase : Str
  bootstrap : Option BootstrapCreds
  agent : Option AgentCreds
  desiredState : Option Bytes
  auth : Option AuthCreds
  version : VersionInfo
deriving DecidableEq

def defaultAPIBase : Str := strOf "https://app.certkit.io"

/-- What `LoadConfig` can observe about the file at a path: missing,
empty after whitespace trimming, present but unparseable, or parsed to
a document. The JSON byte round-trip itself is abstracted. -/
inductive FileState where
  | missing
  | blank
  | invalid
  | parsed (cfg : Config)
deriving DecidableEq

abbrev ConfigFS := Str → FileState

def updateFS (fs : ConfigFS) (path : Str) (st : FileState) : ConfigFS :=
  fun p => if p = path then st else fs p

/-- certkit `config.SaveConfig`: JSON serialization plus
`WriteFileAtomic`. At this layer the byte-level write is abstracted to
storing the document at the path (the byte-level write is modelled
separately by `WriteFileAtomic`). -/
def SaveConfig (cfg : Config) (path : Str) (fs : ConfigFS) : ConfigFS :=
  updateFS fs path (.parsed cfg)

/-- certkit `config.hasKeyPair`; `none` models a nil `*Config`. -/
def hasKeyPair (cfg : Option Config) : Bool :=
  match cfg with
  | none => false
  | some c =>
    match c.auth with
    | none => false
    | some a =>
      match a.keyPair with
      | none => false
      | some kp => if kp.publicKey = [] ∨ kp.privateKey = [] then false else true

/-- certkit `config.LoadConfig`. The entropy stream feeds
`CreateNewKeyPair` when a keypair must be provisioned. The returned
file system reflects the `SaveConfig` side effect. The
`CurrentConfig` process-global is not modelled (no claim concerns it). -/
def LoadConfig (path : Str) (version : VersionInfo) (fs : ConfigFS)
    (entropy : Nat → Nat) : Except Str (Config × ConfigFS) :=
  if path = [] then .error (strOf "config path is empty")
  else
    match fs path with
    | .missing => .error (strOf "config file does not exist")
    | .blank => .error (strOf "config file is empty")
    | .invalid => .error (strOf "failed to parse config file")
    | .parsed cfg =>
      if ¬ hasKeyPair (some cfg) then
        let kp := CreateNewKeyPair entropy
        let cfg1 := { cfg with auth := some ⟨some kp⟩ }
        let fs1 := SaveConfig cfg1 path fs
        .ok ({ cfg1 with version := version }, fs1)
      else
        .ok ({ cfg with version := version }, fs)

/-- The environment variables `config.CreateInitialConfig` reads; the
empty string models an unset variable, as with Go `os.Getenv`. -/
structure GoEnv where
  accessKey : Str
  secretKey : Str
  certkitApiBase : Str

/-- certkit `config.CreateInitialConfig` (`os.MkdirAll` is abstracted). -/
def CreateInitialConfig (env : GoEnv) (path : Str) (fs : ConfigFS) :
    Except Str ConfigFS :=
  if env.accessKey = [] ∨ env.secretKey = [] then
    .error (strOf "ACCESS_KEY and SECRET_KEY are required for first install")
  else
    let apiBase := if env.certkitApiBase = [] then defaultAPIBase else env.certkitApiBase
    let cfg : Config :=
      { apiBase := apiBase
        bootstrap := some ⟨env.accessKey, env.secretKey⟩
        agent := none
        desiredState := none
        auth := none
        version := ⟨[], [], []⟩ }
    .ok (SaveConfig cfg path fs)

def notSlash (c : Char) : Bool := ¬ c = '/'

/-- Split a path around its last slash. -/
def lastSlashSplit (p : Str) : Option (Str × Str) :=
  let revBase := p.reverse.takeWhile notSlash
  if revBase.length = p.length then none
  else some (p.take (p.length - revBase.length - 1), revBase.reverse)

/-- Model of Go `path/filepath.Dir` for the slash-separated paths the
agent uses (`Clean` normalization of degenerate paths is not
modelled). -/
def filepathDir (p : Str) : Str :=
  match lastSlashSplit p with
  | none => strOf "."
  | some d => d.1

/-- Model of Go `path/filepath.Base` for the same path fragment. -/
def filepathBase (p : Str) : Str :=
  match lastSlashSplit p with
  | none => if p = [] then strOf "." else p
  | some d => d.2

/-- The name `os.CreateTemp(dir, "."+base+".tmp.*")` produces, with the
random suffix modelled as `0`; `CreateTemp` guarantees the name is
fresh. -/
def tmpNameOf (path : Str) : Str :=
  filepathDir path ++ strOf "/." ++ filepathBase path ++ strOf ".tmp.0"

/-- Which of the fallible steps inside `WriteFileAtomic` fail in a
given run. -/
structure FailSpec where
  createTempFails : Bool
  chmodFails : Bool
  writeFails : Bool
  syncFails : Bool
  closeFails : Bool
  renameFails : Bool

inductive WriteFailure where
  | createTemp
  | chmod
  | write
  | sync
  | close
  | rename
deriving DecidableEq

/-- A byte-level file system: path to contents. -/
abbrev ByteFS := Str → Option Bytes

def updateBFS (fs : ByteFS) (p : Str) (v : Option Bytes) : ByteFS :=
  fun q => if q = p then v else fs q

/-- certkit `utils.WriteFileAtomic`, stepped against a failure
schedule. A failing write may leave partial bytes in the temp file,
but the `cleanup` closure removes it in the same step, so only the
removal is observable. On a rename failure the source returns without
running `cleanup`. -/
def WriteFileAtomic (fs : ByteFS) (path : Str) (contents : Bytes)
    (perm : Nat) (f : FailSpec) : Option WriteFailure × ByteFS :=
  let _ := perm
  let tmp := tmpNameOf path
  if f.createTempFails then (some .createTemp, fs)
  else
    let fs1 := updateBFS fs tmp (some [])
    if f.chmodFails then (some .chmod, updateBFS fs1 tmp none)
    else
      let fs2 := updateBFS fs1 tmp (some contents)
      if f.writeFails then (some .write, updateBFS fs2 tmp none)
      else if f.syncFails then (some .sync, updateBFS fs2 tmp none)
      else if f.closeFails then (some .close, updateBFS fs2 tmp none)
      else if f.renameFails then (some .rename, fs2)
      else (none, updateBFS (updateBFS fs2 tmp none) path (some contents))

/-- The bytes a fresh read of the request body would yield (empty for
a nil body). -/
def bodyBytes (r : GoRequest) : Bytes :=
  match r.body with
  | none => []
  | some bd => bd.data.drop bd.pos

/-- The canonical signing string recomputed from the signed components
of a request, as a verifier would: method, escaped path, raw query,
selected host, unix-second timestamp and body bytes. -/
def canonicalStringParts (m p q h : Str) (ts : Int) (body : Bytes) : Str :=
  buildSigningString m (canonicalPathAndQuery (some ⟨p, q, []⟩)) h ts
    (b64Encode (sha256 body))

/-- Concrete request fixture used by witnesses. -/
def reqA : GoRequest :=
  { method := strOf "GET"
    url := some ⟨strOf "/api/v1/ping", [], strOf "app.example.com"⟩
    host := []
    body := some ⟨[1, 2, 3], 0⟩
    headers := [] }

def aidA : Str := strOf "agent-1"

def privA : Bytes := List.replicate 64 7

def nowA : GoTime := ⟨1700000000, 0⟩

/-- The request `SignRequest` produces on the fixture (total projection
of the `Except`, used to keep witness statements closed). -/
def signedA : GoRequest := (SignRequest (some reqA) aidA privA nowA).toOption.getD reqA

/-- Concrete config fixtures used by witnesses. -/
def cfg0 : Config :=
  { apiBase := strOf "https://app.certkit.io"
    bootstrap := some ⟨strOf "AK1", strOf "SK1"⟩
    agent := none
    desiredState := none
    auth := none
    version := ⟨[], [], []⟩ }

def path0 : Str := strOf "/etc/certkit-agent/config.json"

def fs0 : ConfigFS := fun p => if p = path0 then .parsed cfg0 else .missing

def vA : VersionInfo := ⟨strOf "1.0", [], []⟩

/-- A document whose stored keypair strings are non-empty but not
valid base64url key material. -/
def cfgBad : Config :=
  { apiBase := strOf "https://app.certkit.io"
    bootstrap := none
    agent := none
    desiredState := none
    auth := some ⟨some ⟨strOf "x", strOf "y"⟩⟩
    version := ⟨[], [], []⟩ }

def fsBad : ConfigFS := fun p => if p = path0 then .parsed cfgBad else .missing

/-- Byte-level file-system fixtures for the atomic-write claims. -/
def fsEmpty : ByteFS := fun _ => none

def failRenameSpec : FailSpec := ⟨false, false, false, false, false, true⟩

def allOkSpec : FailSpec := ⟨false, false, false, false, false, false⟩

theorem char_toNat_ofNat_valid (n : Nat) (h : n < 55296) :
    (Char.ofNat n).toNat = n := by
  have hv : n.isValidChar := Or.inl h
  simp [Char.ofNat, hv, Char.toNat, Char.ofNatAux, UInt32.toNat, BitVec.toNat_ofNatLt]

theorem goLowerChar_idem (c : Char) : goLowerChar (goLowerChar c) = goLowerChar c := by
  by_cases h : 65 ≤ c.toNat ∧ c.toNat ≤ 90
  · have h32 : c.toNat + 32 < 55296 := by omega
    have hc : ¬ (65 ≤ c.toNat + 32 ∧ c.toNat + 32 ≤ 90) := by omega
    simp only [goLowerChar, if_pos h]
    rw [char_toNat_ofNat_valid _ h32, if_neg hc]
  · simp only [goLowerChar, if_neg h]

theorem goToLower_idem (s : Str) : goToLower (goToLower s) = goToLower s := by
  simp only [goToLower, List.map_map]
  exact List.map_congr_left fun c _ => goLowerChar_idem c

theorem decVal_append (s : Str) (c : Char) :
    decVal (s ++ [c]) = decVal s * 10 + (c.toNat - 48) := by
  simp [decVal, List.foldl_append]

theorem decVal_natToDec (n : Nat) : decVal (natToDec n) = n := by
  induction n using Nat.strong_induction_on with
  | _ n ih =>
    by_cases h : n < 10
    · have h48 : 48 + n < 55296 := by omega
      simp [natToDec, h, decVal, char_toNat_ofNat_valid _ h48]
    · have hd : n / 10 < n := Nat.div_lt_self (by omega) (by omega)
      have h48 : 48 + n % 10 < 55296 := by
        have := Nat.mod_lt n (y := 10) (by omega); omega
      rw [natToDec]
      simp only [h, dite_false]
      rw [decVal_append, ih _ hd, char_toNat_ofNat_valid _ h48]
      omega

theorem natToDec_injective (m n : Nat) (h : natToDec m = natToDec n) : m = n := by
  have := decVal_natToDec m
  rw [h, decVal_natToDec] at this
  omega

theorem natToDec_ne_nil (n : Nat) : natToDec n ≠ [] := by
  rw [natToDec]
  by_cases h : n < 10 <;> simp [h]

theorem natToDec_head_digit (n : Nat) :
    ∀ c rest, natToDec n = c :: rest → 48 ≤ c.toNat := by
  induction n using Nat.strong_induction_on with
  | _ n ih =>
    intro c rest hcons
    by_cases h : n < 10
    · rw [natToDec] at hcons
      simp [h] at hcons
      have h48 : 48 + n < 55296 := by omega
      rw [← hcons.1, char_toNat_ofNat_valid _ h48]
      omega
    · rw [natToDec] at hcons
      simp only [h, dite_false] at hcons
      have hd : n / 10 < n := Nat.div_lt_self (by omega) (by omega)
      rcases hn : natToDec (n / 10) with _ | ⟨c0, rest0⟩
      · exact absurd hn (natToDec_ne_nil _)
      · rw [hn] at hcons
        simp at hcons
        rw [← hcons.1]
        exact ih _ hd c0 rest0 hn

theorem formatInt10_injective (i j : Int) (h : formatInt10 i = formatInt10 j) :
    i = j := by
  unfold formatInt10 at h
  by_cases hi : i < 0 <;> by_cases hj : j < 0
  · simp only [hi, hj, if_true, List.cons.injEq, true_and] at h
    have := natToDec_injective _ _ h
    omega
  · simp only [hi, hj, if_true, if_false] at h
    rcases hn : natToDec j.toNat with _ | ⟨c, rest⟩
    · exact absurd hn (natToDec_ne_nil _)
    · rw [hn] at h
      injection h with hc _
      have hge : (48 : Nat) ≤ Char.toNat '-' := by
        rw [hc]; exact natToDec_head_digit _ _ _ hn
      have h45 : Char.toNat '-' = 45 := by decide
      omega
  · simp only [hi, hj, if_true, if_false] at h
    rcases hn : natToDec i.toNat with _ | ⟨c, rest⟩
    · exact absurd hn (natToDec_ne_nil _)
    · rw [hn] at h
      injection h with hc _
      have hge : (48 : Nat) ≤ Char.toNat '-' := by
        rw [← hc]; exact natToDec_head_digit _ _ _ hn
      have h45 : Char.toNat '-' = 45 := by decide
      omega
  · simp only [hi, hj, if_false] at h
    have := natToDec_injective _ _ h
    omega

theorem b64DecChar_encChar (n : Nat) (h : n < 64) :
    b64DecChar (b64EncChar n) = some n := by
  interval_cases n <;> decide

theorem b64Decode_b64Encode (l : Bytes) (h : ∀ x ∈ l, x < 256) :
    b64Decode (b64Encode l) = some l :=
  match l with
  | [] => rfl
  | [a] => by
    have ha : a < 256 := h a (by simp)
    simp only [b64Encode, b64Decode,
      b64DecChar_encChar (a / 4) (by omega),
      b64DecChar_encChar (a % 4 * 16) (by omega)]
    have : a / 4 * 4 + a % 4 * 16 / 16 = a := by omega
    rw [this]
  | [a, b] => by
    have ha : a < 256 := h a (by simp)
    have hb : b < 256 := h b (by simp)
    simp only [b64Encode, b64Decode,
      b64DecChar_encChar (a / 4) (by omega),
      b64DecChar_encChar (a % 4 * 16 + b / 16) (by omega),
      b64DecChar_encChar (b % 16 * 4) (by omega)]
    have h1 : a / 4 * 4 + (a % 4 * 16 + b / 16) / 16 = a := by omega
    have h2 : (a % 4 * 16 + b / 16) % 16 * 16 + b % 16 * 4 / 4 = b := by omega
    rw [h1, h2]
  | a :: b :: c :: rest => by
    have ha : a < 256 := h a (by simp)
    have hb : b < 256 := h b (by simp)
    have hc : c < 256 := h c (by simp)
    have hrest : ∀ x ∈ rest, x < 256 := fun x hx => h x (by simp [hx])
    have ih := b64Decode_b64Encode rest hrest
    have h1 : a / 4 * 4 + (a % 4 * 16 + b / 16) / 16 = a := by omega
    have h2 : (a % 4 * 16 + b / 16) % 16 * 16 + (b % 16 * 4 + c / 64) / 4 = b := by
      omega
    have h3 : (b % 16 * 4 + c / 64) % 4 * 64 + c % 64 = c := by omega
    match hrec : b64Encode rest with
    | [] =>
      rw [show b64Encode (a :: b :: c :: rest) =
        [b64EncChar (a / 4), b64EncChar (a % 4 * 16 + b / 16),
         b64EncChar (b % 16 * 4 + c / 64), b64EncChar (c % 64)] by
          simp [b64Encode, hrec]]
      rw [hrec] at ih
      simp only [b64Decode,
        b64DecChar_encChar (a / 4) (by omega),
        b64DecChar_encChar (a % 4 * 16 + b / 16) (by omega),
        b64DecChar_encChar (b % 16 * 4 + c / 64) (by omega),
        b64DecChar_encChar (c % 64) (by omega)]
      rw [show b64Decode [] = some [] from rfl] at *
      simp at ih
      simp [h1, h2, h3, ← ih]
    | e :: es =>
      rw [show b64Encode (a :: b :: c :: rest) =
        b64EncChar (a / 4) :: b64EncChar (a % 4 * 16 + b / 16) ::
          b64EncChar (b % 16 * 4 + c / 64) :: b64EncChar (c % 64) :: e :: es by
          simp [b64Encode, hrec]]
      rw [hrec] at ih
      simp only [b64Decode,
        b64DecChar_encChar (a / 4) (by omega),
        b64DecChar_encChar (a % 4 * 16 + b / 16) (by omega),
        b64DecChar_encChar (b % 16 * 4 + c / 64) (by omega),
        b64DecChar_encChar (c % 64) (by omega)]
      rw [ih]
      simp [h1, h2, h3]

theorem computeBody_fst (r : GoRequest) :
    (ComputeBodySHA256Base64url r).1 = b64Encode (sha256 (bodyBytes r)) := by
  cases hb : r.body <;> simp [ComputeBodySHA256Base64url, bodyBytes, hb]

theorem computeBody_method (r : GoRequest) :
    (ComputeBodySHA256Base64url r).2.method = r.method := by
  cases hb : r.body <;> simp [ComputeBodySHA256Base64url, hb]

theorem computeBody_host (r : GoRequest) :
    (ComputeBodySHA256Base64url r).2.host = r.host := by
  cases hb : r.body <;> simp [ComputeBodySHA256Base64url, hb]

theorem computeBody_url (r : GoRequest) :
    (ComputeBodySHA256Base64url r).2.url = r.url := by
  cases hb : r.body <;> simp [ComputeBodySHA256Base64url, hb]

theorem computeBody_headers (r : GoRequest) :
    (ComputeBodySHA256Base64url r).2.headers = r.headers := by
  cases hb : r.body <;> simp [ComputeBodySHA256Base64url, hb]

theorem computeBody_bodyBytes (r : GoRequest) :
    bodyBytes (ComputeBodySHA256Base64url r).2 = bodyBytes r := by
  cases hb : r.body <;> simp [ComputeBodySHA256Base64url, bodyBytes, hb]

theorem computeBody_pos (r : GoRequest) (bd : GoBody)
    (h : (ComputeBodySHA256Base64url r).2.body = some bd) : bd.pos = 0 := by
  cases hb : r.body <;> simp [ComputeBodySHA256Base64url, hb] at h
  rw [← h]

theorem canonicalHost_computeBody (r : GoRequest) :
    canonicalHost (ComputeBodySHA256Base64url r).2 = canonicalHost r := by
  simp [canonicalHost, computeBody_host, computeBody_url]

theorem canonicalHost_lowered (r : GoRequest) :
    goToLower (canonicalHost r) = canonicalHost r := by
  unfold canonicalHost
  by_cases h : trimSpace r.host = []
  · simp only [h, not_true_eq_false, if_false]
    cases r.url with
    | none => rfl
    | some u => exact goToLower_idem u.host
  · simp [h, goToLower_idem]

theorem find?_filter_of_imp {α : Type} (l : List α) (p q : α → Bool)
    (h : ∀ x, p x = true → q x = true) : (l.filter q).find? p = l.find? p := by
  induction l with
  | nil => rfl
  | cons a t ih =>
    by_cases hp : p a = true
    · rw [List.filter_cons, h a hp]
      simp [List.find?, hp, ih]
    · rw [List.filter_cons]
      by_cases hq : q a = true
      · simp only [hq, if_true]
        have hp' : p a = false := by simp at hp; simp [hp]
        simp [List.find?, hp', ih]
      · have hq' : q a = false := by simp at hq; simp [hq]
        have hp' : p a = false := by simp at hp; simp [hp]
        simp [hq', List.find?, hp', ih]

theorem getHeader_setHeader_self (hs : List (Str × Str)) (k v : Str) :
    getHeader (setHeader hs k v) k = some v := by
  simp [getHeader, setHeader, List.find?]

theorem getHeader_setHeader_ne (hs : List (Str × Str)) (k k' v : Str)
    (h : ¬ k = k') : getHeader (setHeader hs k' v) k = getHeader hs k := by
  unfold getHeader setHeader
  rw [List.find?]
  have : (decide ((k', v).1 = k)) = false := by
    simp only [decide_eq_false_iff_not]
    intro hh
    exact h hh.symm
  rw [this]
  rw [find?_filter_of_imp]
  intro x hx
  simp only [decide_eq_true_eq] at hx
  simp [hx, h]

/-- C6: `SignRequest` rejects a nil request, a nil URL, a private key
whose length is not 64 bytes, or an empty agent id with a validation
error; an error return leaves the request untouched by construction in
this embedding. -/
theorem c6_sign_request_precondition_errors (req : Option GoRequest)
    (agentID : Str) (priv : Bytes) (now : GoTime)
    (h : req = none ∨ priv.length ≠ 64 ∨ agentID = [] ∨
      ∃ r, req = some r ∧ r.url = none) :
    ∃ e, SignRequest req agentID priv now = .error e := by
  rcases h with h | h | h | ⟨r, hr, hu⟩
  · subst h
    exact ⟨_, rfl⟩
  · cases req with
    | none => exact ⟨_, rfl⟩
    | some r =>
      simp only [SignRequest]
      rw [if_pos h]
      exact ⟨_, rfl⟩
  · cases req with
    | none => exact ⟨_, rfl⟩
    | some r =>
      simp only [SignRequest]
      by_cases hp : priv.length = 64
      · rw [if_neg (by simp [hp]), if_pos h]
        exact ⟨_, rfl⟩
      · rw [if_pos hp]
        exact ⟨_, rfl⟩
  · subst hr
    simp only [SignRequest]
    by_cases hp : priv.length = 64
    · by_cases ha : agentID = []
      · rw [if_neg (by simp [hp]), if_pos ha]
        exact ⟨_, rfl⟩
      · rw [if_neg (by simp [hp]), if_neg ha, hu]
        exact ⟨_, rfl⟩
    · rw [if_pos hp]
      exact ⟨_, rfl⟩

theorem c6_witness :
    ((none : Option GoRequest) = none ∨ (List.replicate 64 0 : Bytes).length ≠ 64 ∨
      strOf "a" = [] ∨ ∃ r, (none : Option GoRequest) = some r ∧ r.url = none) ∧
    ∃ e, SignRequest none (strOf "a") (List.replicate 64 0) ⟨0, 0⟩ = .error e :=
  ⟨Or.inl rfl,
   c6_sign_request_precondition_errors none (strOf "a") (List.replicate 64 0) ⟨0, 0⟩
     (Or.inl rfl)⟩

/-- C10: when the preconditions pass but both the trimmed explicit Host
field and the URL host are empty, `SignRequest` returns an error and
sets no headers (an error return carries no mutated request in this
embedding). -/
theorem c10_sign_request_missing_host (r : GoRequest) (u : GoURL)
    (agentID : Str) (priv : Bytes) (now : GoTime)
    (hpriv : priv.length = 64) (haid : agentID ≠ [])
    (hurl : r.url = some u)
    (hhost : trimSpace r.host = []) (huhost : u.host = []) :
    ∃ e, SignRequest (some r) agentID priv now = .error e := by
  simp only [SignRequest]
  rw [if_neg (by simp [hpriv]), if_neg haid, hurl]
  have hch : canonicalHost (ComputeBodySHA256Base64url r).2 = [] := by
    rw [canonicalHost_computeBody]
    unfold canonicalHost
    rw [if_neg (by simp [hhost]), hurl]
    simp [huhost, goToLower]
  exact ⟨strOf "missing host (req.Host and req.URL.Host both empty)", by simp [hch]⟩

theorem c10_witness :
    ∃ e, SignRequest
      (some { method := strOf "GET", url := some ⟨strOf "/x", [], []⟩,
              host := strOf "  ", body := none, headers := [] })
      (strOf "agent-1") (List.replicate 64 0) ⟨0, 0⟩ = .error e :=
  c10_sign_request_missing_host _ ⟨strOf "/x", [], []⟩ (strOf "agent-1")
    (List.replicate 64 0) ⟨0, 0⟩ (by decide) (by decide) rfl (by decide) rfl

/-- C7: decoding inverts encoding for 32-byte public keys and 64-byte
private keys, and any string whose base64url decoding has a different
length is rejected by the respective decoder. -/
theorem c7_decode_roundtrip_and_length :
    (∀ k : Bytes, k.length = 32 → (∀ x ∈ k, x < 256) →
      DecodePublicKey (b64Encode k) = some k) ∧
    (∀ k : Bytes, k.length = 64 → (∀ x ∈ k, x < 256) →
      DecodePrivateKey (b64Encode k) = some k) ∧
    (∀ s b, b64Decode s = some b → b.length ≠ 32 → DecodePublicKey s = none) ∧
    (∀ s b, b64Decode s = some b → b.length ≠ 64 → DecodePrivateKey s = none) := by
  refine ⟨fun k hlen hbytes => ?_, fun k hlen hbytes => ?_,
    fun s b hdec hlen => ?_, fun s b hdec hlen => ?_⟩
  · unfold DecodePublicKey
    rw [b64Decode_b64Encode k hbytes]
    simp [hlen]
  · unfold DecodePrivateKey
    rw [b64Decode_b64Encode k hbytes]
    simp [hlen]
  · unfold DecodePublicKey
    rw [hdec]
    simp [hlen]
  · unfold DecodePrivateKey
    rw [hdec]
    simp [hlen]

theorem c7_witness :
    DecodePublicKey (b64Encode (List.replicate 32 5)) = some (List.replicate 32 5) ∧
    DecodePrivateKey (b64Encode (List.replicate 64 9)) = some (List.replicate 64 9) ∧
    DecodePublicKey [] = none ∧
    DecodePrivateKey [] = none :=
  ⟨c7_decode_roundtrip_and_length.1 _ (by decide) (by decide),
   c7_decode_roundtrip_and_length.2.1 _ (by decide) (by decide),
   c7_decode_roundtrip_and_length.2.2.1 [] [] rfl (by decide),
   c7_decode_roundtrip_and_length.2.2.2 [] [] rfl (by decide)⟩

/-- C8: `CreateInitialConfig` fails when either environment credential
is missing, and otherwise writes a document holding only `apiBase` and
`bootstrap` (the supplied keys), with agent, identity and desired
state absent. -/
theorem c8_create_initial_config (env : GoEnv) (path : Str) (fs : ConfigFS) :
    (env.accessKey = [] ∨ env.secretKey = [] →
      ∃ e, CreateInitialConfig env path fs = .error e) ∧
    (env.accessKey ≠ [] → env.secretKey ≠ [] →
      ∃ fs', CreateInitialConfig env path fs = .ok fs' ∧
        fs' path = .parsed
          { apiBase := if env.certkitApiBase = [] then defaultAPIBase
              else env.certkitApiBase
            bootstrap := some ⟨env.accessKey, env.secretKey⟩
            agent := none
            desiredState := none
            auth := none
            version := ⟨[], [], []⟩ }) := by
  constructor
  · intro h
    unfold CreateInitialConfig
    rw [if_pos h]
    exact ⟨_, rfl⟩
  · intro ha hs
    unfold CreateInitialConfig
    rw [if_neg (by simp [ha, hs])]
    exact ⟨_, rfl, by simp [SaveConfig, updateFS]⟩

theorem c8_witness :
    ∃ fs', CreateInitialConfig ⟨strOf "AK1", strOf "SK1", []⟩
        (strOf "/etc/certkit-agent/config.json") (fun _ => .missing) = .ok fs' ∧
      fs' (strOf "/etc/certkit-agent/config.json") = .parsed
        { apiBase := if ([] : Str) = [] then defaultAPIBase else []
          bootstrap := some ⟨strOf "AK1", strOf "SK1"⟩
          agent := none
          desiredState := none
          auth := none
          version := ⟨[], [], []⟩ } :=
  (c8_create_initial_config ⟨strOf "AK1", strOf "SK1", []⟩
    (strOf "/etc/certkit-agent/config.json") (fun _ => .missing)).2
    (by decide) (by decide)

/-- C2: the body hash `SignRequest` uses (observable through the
`X-Agent-Content-SHA256` header, and already at the
`ComputeBodySHA256Base64url` boundary) is the unpadded base64url
encoding of SHA-256 of the exact remaining body bytes — of the empty
byte sequence for a nil body — and after a successful `SignRequest`
the body holds the same bytes, rewound to position zero. -/
theorem c2_body_hash_and_restoration (r : GoRequest) (agentID : Str)
    (priv : Bytes) (now : GoTime) (r' : GoRequest)
    (hok : SignRequest (some r) agentID priv now = .ok r') :
    (ComputeBodySHA256Base64url r).1 = b64Encode (sha256 (bodyBytes r)) ∧
    getHeader r'.headers (strOf "X-Agent-Content-SHA256") =
      some (b64Encode (sha256 (bodyBytes r))) ∧
    bodyBytes r' = bodyBytes r ∧
    (∀ bd, r'.body = some bd → bd.pos = 0) := by
  refine ⟨computeBody_fst r, ?_⟩
  simp only [SignRequest] at hok
  split at hok
  · exact absurd hok (by simp)
  · split at hok
    · exact absurd hok (by simp)
    · split at hok
      · exact absurd hok (by simp)
      · split at hok
        · exact absurd hok (by simp)
        · cases hok
          refine ⟨?_, ?_, ?_⟩
          · rw [getHeader_setHeader_ne _ _ _ _ (by decide),
              getHeader_setHeader_self, computeBody_fst]
          · exact computeBody_bodyBytes r
          · intro bd hbd
            exact computeBody_pos r bd hbd

theorem c2_witness :
    (ComputeBodySHA256Base64url reqA).1 = b64Encode (sha256 (bodyBytes reqA)) ∧
    getHeader signedA.headers (strOf "X-Agent-Content-SHA256") =
      some (b64Encode (sha256 (bodyBytes reqA))) ∧
    bodyBytes signedA = bodyBytes reqA ∧
    (∀ bd, signedA.body = some bd → bd.pos = 0) :=
  c2_body_hash_and_restoration reqA aidA privA nowA signedA (by rfl)

theorem buildSigningString_explicit (m pq h : Str) (ts : Int) (bh : Str) :
    buildSigningString m pq h ts bh =
      strOf "method: " ++ goToUpper m ++ strOf "\n" ++
      strOf "path: " ++ pq ++ strOf "\n" ++
      strOf "host: " ++ goToLower h ++ strOf "\n" ++
      strOf "ts: " ++ formatInt10 ts ++ strOf "\n" ++
      strOf "body_sha256: " ++ bh := by
  simp [buildSigningString, List.intercalate, List.intersperse, List.append_assoc]

theorem canonicalPathAndQuery_explicit (u : GoURL) :
    canonicalPathAndQuery (some u) =
      (if u.escapedPath = [] then strOf "/" else u.escapedPath) ++
      (if ¬ u.rawQuery = [] then strOf "?" ++ u.rawQuery else []) := by
  unfold canonicalPathAndQuery
  by_cases hq : u.rawQuery = [] <;> simp [hq, List.append_assoc]

/-- C1: for a request with a non-nil URL that `SignRequest` accepts,
the signed string (observable through the signature carried in the
`Authorization` header) is exactly the five newline-joined `key: value`
lines in the order method, path, host, ts, body_sha256, with the
method upper-cased, the path defaulting to "/" and carrying "?" plus
the raw query verbatim when present, the (selected) host lower-cased
(`canonicalHost` is that lower-cased host), and ts the caller-supplied
time truncated to decimal unix seconds. -/
theorem c1_signing_string_structure (r : GoRequest) (u : GoURL) (agentID : Str)
    (priv : Bytes) (now : GoTime) (r' : GoRequest)
    (hurl : r.url = some u)
    (hok : SignRequest (some r) agentID priv now = .ok r') :
    getHeader r'.headers (strOf "Authorization") =
      some (authHeaderValue agentID (b64Encode (ed25519Sign priv (strBytes (
        strOf "method: " ++ goToUpper r.method ++ strOf "\n" ++
        strOf "path: " ++
          ((if u.escapedPath = [] then strOf "/" else u.escapedPath) ++
            (if ¬ u.rawQuery = [] then strOf "?" ++ u.rawQuery else [])) ++ strOf "\n" ++
        strOf "host: " ++ canonicalHost r ++ strOf "\n" ++
        strOf "ts: " ++ formatInt10 (goTimeUnix now) ++ strOf "\n" ++
        strOf "body_sha256: " ++ b64Encode (sha256 (bodyBytes r))))))) := by
  simp only [SignRequest] at hok
  split at hok
  · exact absurd hok (by simp)
  · split at hok
    · exact absurd hok (by simp)
    · split at hok
      · exact absurd hok (by simp)
      · rename_i u' heq
        rw [hurl] at heq
        injection heq with hu'
        subst hu'
        split at hok
        · exact absurd hok (by simp)
        · cases hok
          have hS : buildSigningString (ComputeBodySHA256Base64url r).2.method
              (canonicalPathAndQuery (some u))
              (canonicalHost (ComputeBodySHA256Base64url r).2) (goTimeUnix now)
              (ComputeBodySHA256Base64url r).1 =
              strOf "method: " ++ goToUpper r.method ++ strOf "\n" ++
              strOf "path: " ++
                ((if u.escapedPath = [] then strOf "/" else u.escapedPath) ++
                  (if ¬ u.rawQuery = [] then strOf "?" ++ u.rawQuery else [])) ++ strOf "\n" ++
              strOf "host: " ++ canonicalHost r ++ strOf "\n" ++
              strOf "ts: " ++ formatInt10 (goTimeUnix now) ++ strOf "\n" ++
              strOf "body_sha256: " ++ b64Encode (sha256 (bodyBytes r)) := by
            rw [computeBody_method, canonicalHost_computeBody, computeBody_fst,
              buildSigningString_explicit, canonicalPathAndQuery_explicit,
              canonicalHost_lowered]
          rw [hS, getHeader_setHeader_self]

theorem c1_witness :
    getHeader signedA.headers (strOf "Authorization") =
      some (authHeaderValue aidA (b64Encode (ed25519Sign privA (strBytes (
        strOf "method: " ++ goToUpper reqA.method ++ strOf "\n" ++
        strOf "path: " ++
          ((if (strOf "/api/v1/ping" : Str) = [] then strOf "/" else strOf "/api/v1/ping") ++
            (if ¬ ([] : Str) = [] then strOf "?" ++ ([] : Str) else [])) ++ strOf "\n" ++
        strOf "host: " ++ canonicalHost reqA ++ strOf "\n" ++
        strOf "ts: " ++ formatInt10 (goTimeUnix nowA) ++ strOf "\n" ++
        strOf "body_sha256: " ++ b64Encode (sha256 (bodyBytes reqA))))))) :=
  c1_signing_string_structure reqA ⟨strOf "/api/v1/ping", [], strOf "app.example.com"⟩
    aidA privA nowA signedA rfl (by rfl)

theorem b64Encode_ne_nil (l : Bytes) (h : l ≠ []) : b64Encode l ≠ [] := by
  match l with
  | [] => exact absurd rfl h
  | [a] => simp [b64Encode]
  | [a, b] => simp [b64Encode]
  | a :: b :: c :: rest => simp [b64Encode]

theorem createNewKeyPair_decodes (e : Nat → Nat) :
    (∃ pb, b64Decode (CreateNewKeyPair e).publicKey = some pb ∧ pb.length = 32) ∧
    (∃ sb, b64Decode (CreateNewKeyPair e).privateKey = some sb ∧ sb.length = 64) := by
  constructor
  · refine ⟨(List.range 32).map fun i => e (32 + i) % 256, ?_, by simp⟩
    exact b64Decode_b64Encode ((List.range 32).map fun i => e (32 + i) % 256) (by
      intro x hx
      simp only [List.mem_map] at hx
      obtain ⟨i, _, hi⟩ := hx
      omega)
  · refine ⟨((List.range 32).map fun i => e i % 256) ++
      ((List.range 32).map fun i => e (32 + i) % 256), ?_, by simp⟩
    exact b64Decode_b64Encode (((List.range 32).map fun i => e i % 256) ++
      ((List.range 32).map fun i => e (32 + i) % 256)) (by
      intro x hx
      simp only [List.mem_append, List.mem_map] at hx
      rcases hx with ⟨i, _, hi⟩ | ⟨i, _, hi⟩ <;> omega)

theorem createNewKeyPair_nonempty (e : Nat → Nat) :
    (CreateNewKeyPair e).publicKey ≠ [] ∧ (CreateNewKeyPair e).privateKey ≠ [] := by
  constructor
  · refine b64Encode_ne_nil ((List.range 32).map fun i => e (32 + i) % 256) ?_
    intro h
    have hl := congrArg List.length h
    simp at hl
  · refine b64Encode_ne_nil (((List.range 32).map fun i => e i % 256) ++
      ((List.range 32).map fun i => e (32 + i) % 256)) ?_
    intro h
    have hl := congrArg List.length h
    simp at hl

theorem hasKeyPair_of_nonempty (cfg : Config) (kp : KeyPair)
    (hauth : cfg.auth = some ⟨some kp⟩)
    (hp : kp.publicKey ≠ []) (hs : kp.privateKey ≠ []) :
    hasKeyPair (some cfg) = true := by
  simp only [hasKeyPair, hauth]
  rw [if_neg]
  simp [hp, hs]

/-- C3: loading a parsed document with no valid identity generates a
keypair whose encoded keys decode to 32 and 64 bytes, persists the
updated document at the same path in the returned file system, and a
second load of that path generates nothing new; a document that
already has a keypair is loaded without regeneration and without
touching the file system. -/
theorem c3_keypair_provisioning (path : Str) (v v2 : VersionInfo)
    (fs : ConfigFS) (entropy entropy2 : Nat → Nat) (cfg : Config)
    (hpath : path ≠ []) (hfile : fs path = .parsed cfg) :
    (hasKeyPair (some cfg) = false →
      ∃ kp, kp = CreateNewKeyPair entropy ∧
        LoadConfig path v fs entropy =
          .ok ({ cfg with auth := some ⟨some kp⟩, version := v },
               SaveConfig { cfg with auth := some ⟨some kp⟩ } path fs) ∧
        (∃ pb, b64Decode kp.publicKey = some pb ∧ pb.length = 32) ∧
        (∃ sb, b64Decode kp.privateKey = some sb ∧ sb.length = 64) ∧
        SaveConfig { cfg with auth := some ⟨some kp⟩ } path fs path =
          .parsed { cfg with auth := some ⟨some kp⟩ } ∧
        LoadConfig path v2
            (SaveConfig { cfg with auth := some ⟨some kp⟩ } path fs) entropy2 =
          .ok ({ cfg with auth := some ⟨some kp⟩, version := v2 },
               SaveConfig { cfg with auth := some ⟨some kp⟩ } path fs)) ∧
    (hasKeyPair (some cfg) = true →
      LoadConfig path v fs entropy = .ok ({ cfg with version := v }, fs)) := by
  constructor
  · intro hno
    refine ⟨CreateNewKeyPair entropy, rfl, ?_,
      (createNewKeyPair_decodes entropy).1, (createNewKeyPair_decodes entropy).2,
      by simp [SaveConfig, updateFS], ?_⟩
    · simp only [LoadConfig, if_neg hpath, hfile]
      rw [if_pos (by simp [hno])]
    · have hsave : SaveConfig { cfg with auth := some ⟨some (CreateNewKeyPair entropy)⟩ }
          path fs path = .parsed { cfg with auth := some ⟨some (CreateNewKeyPair entropy)⟩ } := by
        simp [SaveConfig, updateFS]
      have hyes : hasKeyPair
          (some { cfg with auth := some ⟨some (CreateNewKeyPair entropy)⟩ }) = true :=
        hasKeyPair_of_nonempty _ _ rfl (createNewKeyPair_nonempty entropy).1
          (createNewKeyPair_nonempty entropy).2
      simp only [LoadConfig, if_neg hpath, hsave]
      rw [if_neg (by simp [hyes])]
  · intro hyes
    simp only [LoadConfig, if_neg hpath, hfile]
    rw [if_neg (by simp [hyes])]

theorem c3_witness :
    ∃ kp, kp = CreateNewKeyPair (fun i => i) ∧
      LoadConfig path0 vA fs0 (fun i => i) =
        .ok ({ cfg0 with auth := some ⟨some kp⟩, version := vA },
             SaveConfig { cfg0 with auth := some ⟨some kp⟩ } path0 fs0) ∧
      (∃ pb, b64Decode kp.publicKey = some pb ∧ pb.length = 32) ∧
      (∃ sb, b64Decode kp.privateKey = some sb ∧ sb.length = 64) ∧
      SaveConfig { cfg0 with auth := some ⟨some kp⟩ } path0 fs0 path0 =
        .parsed { cfg0 with auth := some ⟨some kp⟩ } ∧
      LoadConfig path0 vA
          (SaveConfig { cfg0 with auth := some ⟨some kp⟩ } path0 fs0) (fun i => i) =
        .ok ({ cfg0 with auth := some ⟨some kp⟩, version := vA },
             SaveConfig { cfg0 with auth := some ⟨some kp⟩ } path0 fs0) :=
  (c3_keypair_provisioning path0 vA vA fs0 (fun i => i) (fun i => i) cfg0
    (by decide) (by simp [fs0])).1 rfl

/-- C9 counterexample: a document holding the keypair strings "x" / "y"
is accepted by `LoadConfig` as already containing a valid identity (no
regeneration, file system untouched), yet neither string decodes to a
key: no decode validation happens on load. -/
theorem c9_counterexample_no_decode_validation :
    hasKeyPair (some cfgBad) = true ∧
    LoadConfig path0 vA fsBad (fun i => i) = .ok ({ cfgBad with version := vA }, fsBad) ∧
    DecodePublicKey (strOf "x") = none ∧
    DecodePrivateKey (strOf "y") = none :=
  ⟨rfl, rfl, rfl, rfl⟩

/-- C9 amended: `LoadConfig` accepts a stored keypair as a valid
identity exactly when both encoded key strings are non-empty; no
base64url decoding or length validation is applied during load (the
decode boundary is only crossed later, when a key is used). -/
theorem c9_identity_validity_is_nonemptiness (cfg : Config) :
    (hasKeyPair (some cfg) = true ↔
      ∃ kp, cfg.auth = some ⟨some kp⟩ ∧ kp.publicKey ≠ [] ∧ kp.privateKey ≠ []) ∧
    (∀ path v fs entropy, path ≠ [] → fs path = .parsed cfg →
      hasKeyPair (some cfg) = true →
      LoadConfig path v fs entropy = .ok ({ cfg with version := v }, fs)) := by
  constructor
  · cases ha : cfg.auth with
    | none => simp [hasKeyPair, ha]
    | some a =>
      cases hkp : a.keyPair with
      | none =>
        simp only [hasKeyPair, ha, hkp]
        constructor
        · intro h; simp at h
        · rintro ⟨kp, hsome, _, _⟩
          injection hsome with haa
          subst haa
          simp at hkp
      | some kp =>
        simp only [hasKeyPair, ha, hkp]
        by_cases he : kp.publicKey = [] ∨ kp.privateKey = []
        · rw [if_pos he]
          constructor
          · intro h; simp at h
          · rintro ⟨kp', hsome, hp, hs⟩
            injection hsome with haa
            subst haa
            simp at hkp
            subst hkp
            rcases he with he | he
            · exact absurd he hp
            · exact absurd he hs
        · rw [if_neg he]
          push_neg at he
          constructor
          · intro _
            refine ⟨kp, ?_, he.1, he.2⟩
            cases a with
            | mk kpOpt =>
              simp at hkp
              rw [hkp]
          · intro _; rfl
  · intro path v fs entropy hpath hfile hyes
    simp only [LoadConfig, if_neg hpath, hfile]
    rw [if_neg (by simp [hyes])]

theorem c9_witness :
    LoadConfig path0 vA fsBad (fun _ => 0) = .ok ({ cfgBad with version := vA }, fsBad) :=
  (c9_identity_validity_is_nonemptiness cfgBad).2 path0 vA fsBad (fun _ => 0)
    (by decide) (by simp [fsBad]) rfl

theorem mem_takeWhile {α : Type} (p : α → Bool) (l : List α) :
    ∀ x ∈ l.takeWhile p, p x = true := by
  induction l with
  | nil => intro x hx; cases hx
  | cons a t ih =>
    intro x hx
    rw [List.takeWhile_cons] at hx
    by_cases hp : p a = true
    · rw [hp] at hx
      simp only [if_true] at hx
      rcases List.mem_cons.mp hx with h | h
      · rw [h]; exact hp
      · exact ih x h
    · rw [Bool.eq_false_iff.mpr hp] at hx
      simp at hx

theorem takeWhile_length_eq_all {α : Type} (p : α → Bool) (l : List α)
    (h : (l.takeWhile p).length = l.length) : ∀ x ∈ l, p x = true := by
  induction l with
  | nil => intro x hx; cases hx
  | cons a t ih =>
    rw [List.takeWhile_cons] at h
    by_cases hp : p a = true
    · rw [hp] at h
      simp only [if_true, List.length_cons, Nat.add_right_cancel_iff] at h
      intro x hx
      rcases List.mem_cons.mp hx with hh | hh
      · rw [hh]; exact hp
      · exact ih h x hh
    · rw [Bool.eq_false_iff.mpr hp] at h
      simp at h

theorem takeWhile_append_of_all {α : Type} (p : α → Bool) (l1 l2 : List α)
    (h : ∀ x ∈ l1, p x = true) :
    (l1 ++ l2).takeWhile p = l1 ++ l2.takeWhile p := by
  induction l1 with
  | nil => simp
  | cons a t ih =>
    have ha : p a = true := h a (by simp)
    rw [List.cons_append, List.takeWhile_cons, ha]
    simp only [if_true, List.cons_append, List.cons.injEq, true_and]
    exact ih fun x hx => h x (by simp [hx])

theorem takeWhile_length_le {α : Type} (p : α → Bool) (l : List α) :
    (l.takeWhile p).length ≤ l.length := by
  induction l with
  | nil => simp
  | cons a t ih =>
    rw [List.takeWhile_cons]
    by_cases hp : p a = true
    · rw [hp]; simpa using ih
    · rw [Bool.eq_false_iff.mpr hp]; simp

theorem lastSlashSplit_append (d b : Str) (hb : ∀ c ∈ b, notSlash c = true) :
    lastSlashSplit (d ++ '/' :: b) = some (d, b) := by
  unfold lastSlashSplit
  have hrev : (d ++ '/' :: b).reverse = b.reverse ++ '/' :: d.reverse := by
    simp
  have htake : (b.reverse ++ '/' :: d.reverse).takeWhile notSlash = b.reverse := by
    rw [takeWhile_append_of_all notSlash b.reverse ('/' :: d.reverse)
      (fun x hx => hb x (List.mem_reverse.mp hx))]
    rw [List.takeWhile_cons]
    rw [show notSlash '/' = false from rfl]
    simp
  rw [hrev, htake]
  have hlen : (d ++ '/' :: b).length = d.length + b.length + 1 := by
    simp; omega
  rw [if_neg (by simp [hlen]; omega)]
  have harith : (d ++ '/' :: b).length - b.reverse.length - 1 = d.length := by
    simp only [hlen, List.length_reverse]
    omega
  rw [harith, List.reverse_reverse]
  congr 1
  have : (d ++ '/' :: b).take d.length = (d ++ '/' :: b).take (min d.length d.length) := by
    simp
  rw [show (d ++ '/' :: b).take d.length = d from by
    rw [List.take_append_of_le_length (by simp)]
    simp]

theorem filepathBase_no_slash (p : Str) : ∀ c ∈ filepathBase p, notSlash c = true := by
  unfold filepathBase
  cases hs : lastSlashSplit p with
  | none =>
    unfold lastSlashSplit at hs
    by_cases hl : (p.reverse.takeWhile notSlash).length = p.reverse.length
    · intro c hc
      by_cases hp : p = []
      · subst hp
        simp [strOf] at hc
        rw [hc]; rfl
      · simp only [hp, if_false] at hc
        exact takeWhile_length_eq_all notSlash p.reverse
          (by simpa using hl) c (by simpa using hc)
    · simp only [List.length_reverse] at hl
      rw [if_neg hl] at hs
      cases hs
  | some db =>
    intro c hc
    unfold lastSlashSplit at hs
    by_cases hl : (p.reverse.takeWhile notSlash).length = p.length
    · rw [if_pos hl] at hs; cases hs
    · rw [if_neg hl] at hs
      injection hs with hdb
      rw [← hdb] at hc
      simp only at hc
      exact mem_takeWhile notSlash p.reverse c (List.mem_reverse.mp hc)

theorem tmpNameOf_split (p : Str) :
    tmpNameOf p = filepathDir p ++ '/' :: ('.' :: (filepathBase p ++ strOf ".tmp.0")) := by
  unfold tmpNameOf
  simp [strOf, List.append_assoc]

theorem tmpNameOf_same_dir (p : Str) :
    filepathDir (tmpNameOf p) = filepathDir p := by
  rw [tmpNameOf_split]
  unfold filepathDir
  rw [lastSlashSplit_append]
  intro c hc
  rcases List.mem_cons.mp hc with h | h
  · rw [h]; rfl
  · rcases List.mem_append.mp h with h | h
    · exact filepathBase_no_slash p c h
    · simp [strOf] at h
      rcases h with h | h | h | h | h | h <;> (rw [h]; rfl)

theorem tmpNameOf_longer (p : Str) : p.length < (tmpNameOf p).length := by
  rw [tmpNameOf_split]
  unfold filepathDir filepathBase lastSlashSplit
  by_cases hl : (p.reverse.takeWhile notSlash).length = p.length
  · rw [if_pos hl]
    by_cases hp : p = []
    · subst hp; simp
    · simp only [hp, if_false]
      simp [strOf]
      omega
  · rw [if_neg hl]
    have hle : (p.reverse.takeWhile notSlash).length ≤ p.length := by
      simpa using takeWhile_length_le notSlash p.reverse
    simp only [List.length_append, List.length_cons, List.length_take,
      List.length_reverse, strOf, List.length_append]
    simp
    omega

theorem tmpNameOf_ne (p : Str) : tmpNameOf p ≠ p := by
  intro h
  have := tmpNameOf_longer p
  rw [h] at this
  omega

/-- C4 counterexample: with every step succeeding except the final
rename, `WriteFileAtomic` returns the rename error but leaves the
fully-written temporary file on disk — the cleanup closure does not
run on the rename failure path, so an orphaned file remains. -/
theorem c4_counterexample_rename_failure_orphan :
    (WriteFileAtomic fsEmpty path0 [1, 2, 3] 384 failRenameSpec).1 =
      some .rename ∧
    (WriteFileAtomic fsEmpty path0 [1, 2, 3] 384 failRenameSpec).2
      (tmpNameOf path0) = some [1, 2, 3] ∧
    (WriteFileAtomic fsEmpty path0 [1, 2, 3] 384 failRenameSpec).2 path0 = none := by
  refine ⟨rfl, ?_, ?_⟩ <;> decide

/-- C4 amended: the temporary file lives in the target's directory;
on success the target holds the new contents and the temp is gone; on
any failure the target still holds its old contents, and the temp file
is removed on every failure path except a failure of the final rename
(where the fully-written temp file may remain). -/
theorem c4_write_file_atomic (fs : ByteFS) (path : Str) (contents : Bytes)
    (perm : Nat) (f : FailSpec) (hfresh : fs (tmpNameOf path) = none) :
    filepathDir (tmpNameOf path) = filepathDir path ∧
    ((WriteFileAtomic fs path contents perm f).1 = none →
      (WriteFileAtomic fs path contents perm f).2 path = some contents ∧
      (WriteFileAtomic fs path contents perm f).2 (tmpNameOf path) = none) ∧
    (∀ e, (WriteFileAtomic fs path contents perm f).1 = some e →
      (WriteFileAtomic fs path contents perm f).2 path = fs path ∧
      (e ≠ .rename →
        (WriteFileAtomic fs path contents perm f).2 (tmpNameOf path) = none)) := by
  have hne : tmpNameOf path ≠ path := tmpNameOf_ne path
  have hne2 : path ≠ tmpNameOf path := fun hh => hne hh.symm
  refine ⟨tmpNameOf_same_dir path, ?_, ?_⟩
  · intro hok
    unfold WriteFileAtomic at hok ⊢
    by_cases h1 : f.createTempFails = true
    · simp [h1] at hok
    · by_cases h2 : f.chmodFails = true
      · simp [h1, h2] at hok
      · by_cases h3 : f.writeFails = true
        · simp [h1, h2, h3] at hok
        · by_cases h4 : f.syncFails = true
          · simp [h1, h2, h3, h4] at hok
          · by_cases h5 : f.closeFails = true
            · simp [h1, h2, h3, h4, h5] at hok
            · by_cases h6 : f.renameFails = true
              · simp [h1, h2, h3, h4, h5, h6] at hok
              · refine ⟨?_, ?_⟩ <;>
                  simp [h1, h2, h3, h4, h5, h6, updateBFS, hne]
  · intro e he
    unfold WriteFileAtomic at he ⊢
    by_cases h1 : f.createTempFails = true
    · refine ⟨?_, fun _ => ?_⟩ <;> simp [h1, hfresh]
    · by_cases h2 : f.chmodFails = true
      · refine ⟨?_, fun _ => ?_⟩ <;> simp [h1, h2, updateBFS, hne2]
      · by_cases h3 : f.writeFails = true
        · refine ⟨?_, fun _ => ?_⟩ <;> simp [h1, h2, h3, updateBFS, hne2]
        · by_cases h4 : f.syncFails = true
          · refine ⟨?_, fun _ => ?_⟩ <;> simp [h1, h2, h3, h4, updateBFS, hne2]
          · by_cases h5 : f.closeFails = true
            · refine ⟨?_, fun _ => ?_⟩ <;>
                simp [h1, h2, h3, h4, h5, updateBFS, hne2]
            · by_cases h6 : f.renameFails = true
              · refine ⟨by simp [h1, h2, h3, h4, h5, h6, updateBFS, hne2],
                  fun hner => ?_⟩
                simp only [h1, h2, h3, h4, h5, h6, Bool.false_eq_true,
                  if_false, if_true] at he
                injection he with hee
                rw [← hee] at hner
                exact absurd rfl hner
              · simp [h1, h2, h3, h4, h5, h6] at he

theorem c4_witness :
    filepathDir (tmpNameOf path0) = filepathDir path0 ∧
    ((WriteFileAtomic fsEmpty path0 [1, 2, 3] 384 allOkSpec).1 = none →
      (WriteFileAtomic fsEmpty path0 [1, 2, 3] 384 allOkSpec).2 path0 =
        some [1, 2, 3] ∧
      (WriteFileAtomic fsEmpty path0 [1, 2, 3] 384 allOkSpec).2
        (tmpNameOf path0) = none) ∧
    (∀ e, (WriteFileAtomic fsEmpty path0 [1, 2, 3] 384 allOkSpec).1 = some e →
      (WriteFileAtomic fsEmpty path0 [1, 2, 3] 384 allOkSpec).2 path0 =
        fsEmpty path0 ∧
      (e ≠ .rename →
        (WriteFileAtomic fsEmpty path0 [1, 2, 3] 384 allOkSpec).2
          (tmpNameOf path0) = none)) :=
  c4_write_file_atomic fsEmpty path0 [1, 2, 3] 384 allOkSpec rfl

theorem canonicalPathAndQuery_mk (p q hst : Str) :
    canonicalPathAndQuery (some ⟨p, q, hst⟩) =
      (if p = [] then strOf "/" else p) ++
      (if ¬ q = [] then strOf "?" ++ q else []) :=
  canonicalPathAndQuery_explicit ⟨p, q, hst⟩

/-- C5 counterexample: altering the request method from "get" to "GET"
is a change to the method after signing, yet recomputing the canonical
signing string yields the identical string, because the method is
upper-cased during canonicalization. -/
theorem c5_counterexample_method_case_change :
    strOf "get" ≠ strOf "GET" ∧
    canonicalStringParts (strOf "get") (strOf "/x") [] (strOf "h") 0 [] =
      canonicalStringParts (strOf "GET") (strOf "/x") [] (strOf "h") 0 [] :=
  ⟨by decide, by rfl⟩

/-- C5 amended: altering exactly one signed component changes the
recomputed canonical signing string whenever the component's canonical
projection changes: always for the query and the timestamp, for the
method and host up to case folding, for the path up to the empty-path
default "/", and for the body up to its SHA-256 base64url hash. -/
theorem c5_single_alteration_changes_canonical_string
    (m m' p p' q q' h h' : Str) (ts ts' : Int) (body body' : Bytes)
    (halt :
      (goToUpper m ≠ goToUpper m' ∧ p = p' ∧ q = q' ∧ h = h' ∧ ts = ts' ∧
        body = body') ∨
      (m = m' ∧ (if p = [] then strOf "/" else p) ≠
          (if p' = [] then strOf "/" else p') ∧ q = q' ∧ h = h' ∧ ts = ts' ∧
        body = body') ∨
      (m = m' ∧ p = p' ∧ q ≠ q' ∧ h = h' ∧ ts = ts' ∧ body = body') ∨
      (m = m' ∧ p = p' ∧ q = q' ∧ goToLower h ≠ goToLower h' ∧ ts = ts' ∧
        body = body') ∨
      (m = m' ∧ p = p' ∧ q = q' ∧ h = h' ∧ ts ≠ ts' ∧ body = body') ∨
      (m = m' ∧ p = p' ∧ q = q' ∧ h = h' ∧ ts = ts' ∧
        b64Encode (sha256 body) ≠ b64Encode (sha256 body'))) :
    canonicalStringParts m p q h ts body ≠
      canonicalStringParts m' p' q' h' ts' body' := by
  rcases halt with ⟨hM, hp, hq, hh, ht, hb⟩ | ⟨hm, hP, hq, hh, ht, hb⟩ |
    ⟨hm, hp, hQ, hh, ht, hb⟩ | ⟨hm, hp, hq, hH, ht, hb⟩ |
    ⟨hm, hp, hq, hh, hT, hb⟩ | ⟨hm, hp, hq, hh, ht, hB⟩
  · subst hp; subst hq; subst hh; subst ht; subst hb
    intro heq
    unfold canonicalStringParts at heq
    rw [buildSigningString_explicit, buildSigningString_explicit] at heq
    simp only [List.append_assoc] at heq
    replace heq := List.append_cancel_left heq
    exact hM (List.append_cancel_right heq)
  · subst hm; subst hq; subst hh; subst ht; subst hb
    intro heq
    unfold canonicalStringParts at heq
    rw [buildSigningString_explicit, buildSigningString_explicit,
      canonicalPathAndQuery_mk, canonicalPathAndQuery_mk] at heq
    simp only [List.append_assoc] at heq
    iterate 4 replace heq := List.append_cancel_left heq
    exact hP (List.append_cancel_right heq)
  · subst hm; subst hp; subst hh; subst ht; subst hb
    intro heq
    unfold canonicalStringParts at heq
    rw [buildSigningString_explicit, buildSigningString_explicit,
      canonicalPathAndQuery_mk, canonicalPathAndQuery_mk] at heq
    simp only [List.append_assoc] at heq
    iterate 5 replace heq := List.append_cancel_left heq
    replace heq := List.append_cancel_right heq
    by_cases hq0 : q = [] <;> by_cases hq0' : q' = []
    · exact hQ (hq0.trans hq0'.symm)
    · rw [if_neg (by simp [hq0]), if_pos (by simp [hq0'])] at heq
      cases heq
    · rw [if_pos (by simp [hq0]), if_neg (by simp [hq0'])] at heq
      cases heq
    · rw [if_pos (by simp [hq0]), if_pos (by simp [hq0'])] at heq
      replace heq := List.append_cancel_left heq
      exact hQ heq
  · subst hm; subst hp; subst hq; subst ht; subst hb
    intro heq
    unfold canonicalStringParts at heq
    rw [buildSigningString_explicit, buildSigningString_explicit] at heq
    simp only [List.append_assoc] at heq
    iterate 7 replace heq := List.append_cancel_left heq
    exact hH (List.append_cancel_right heq)
  · subst hm; subst hp; subst hq; subst hh; subst hb
    intro heq
    unfold canonicalStringParts at heq
    rw [buildSigningString_explicit, buildSigningString_explicit] at heq
    simp only [List.append_assoc] at heq
    iterate 10 replace heq := List.append_cancel_left heq
    exact hT (formatInt10_injective _ _ (List.append_cancel_right heq))
  · subst hm; subst hp; subst hq; subst hh; subst ht
    intro heq
    unfold canonicalStringParts at heq
    rw [buildSigningString_explicit, buildSigningString_explicit] at heq
    simp only [List.append_assoc] at heq
    iterate 13 replace heq := List.append_cancel_left heq
    exact hB heq

theorem c5_witness :
    canonicalStringParts (strOf "GET") (strOf "/x") [] (strOf "h") 0 [] ≠
      canonicalStringParts (strOf "GET") (strOf "/x") [] (strOf "h") 1 [] :=
  c5_single_alteration_changes_canonical_string
    (strOf "GET") (strOf "GET") (strOf "/x") (strOf "/x") [] [] (strOf "h")
    (strOf "h") 0 1 [] []
    (Or.inr (Or.inr (Or.inr (Or.inr (Or.inl (by decide))))))

end Certkit
